import Mathlib

/-!
Verification of the roboptim-core Ipopt plugin adapter layer.

This file gives a shallow embedding, in Lean, of the adapter code in
src/ipopt.cc (the dense adapter), src/tnlp.cc (the sparse adapter) and
src/ipopt-sparse.cc, and proves or refutes the specified properties of
that code.

Modelling conventions:
* IEEE doubles are modelled by an extended value type XR: a finite value
  is an exact rational, and the infinities and NaN are explicit
  constructors.  The adapter's structural logic only compares against
  the +infinity sentinel and performs one subtraction and one halving,
  so this model covers every branch the code can take.
* Eigen sparse matrices are modelled by their list of stored entries
  ((row, column), value), and the canonical iteration of a compressed
  column-major matrix is modelled by sweeping columns in order and the
  rows inside a column in ascending order.
* Engine-supplied C output buffers are modelled as the list of values
  the code writes, in write order.
-/

namespace RoboptimIpopt

/-- Extended evaluation value: an IEEE double as the adapter sees it.
Finite values are exact rationals; the two infinities and NaN are
explicit. -/
inductive XR : Type
  | fin (q : ℚ)
  | pinf
  | ninf
  | nan
deriving DecidableEq

/-- IEEE subtraction on extended values. -/
def XR.sub : XR → XR → XR
  | XR.nan, _ => XR.nan
  | _, XR.nan => XR.nan
  | XR.fin a, XR.fin b => XR.fin (a - b)
  | XR.fin _, XR.pinf => XR.ninf
  | XR.fin _, XR.ninf => XR.pinf
  | XR.pinf, XR.pinf => XR.nan
  | XR.pinf, _ => XR.pinf
  | XR.ninf, XR.ninf => XR.nan
  | XR.ninf, _ => XR.ninf

/-- IEEE addition on extended values. -/
def XR.add : XR → XR → XR
  | XR.nan, _ => XR.nan
  | _, XR.nan => XR.nan
  | XR.fin a, XR.fin b => XR.fin (a + b)
  | XR.fin _, XR.pinf => XR.pinf
  | XR.fin _, XR.ninf => XR.ninf
  | XR.pinf, XR.ninf => XR.nan
  | XR.pinf, _ => XR.pinf
  | XR.ninf, XR.pinf => XR.nan
  | XR.ninf, _ => XR.ninf

/-- IEEE halving of an extended value. -/
def XR.div2 : XR → XR
  | XR.fin a => XR.fin (a / 2)
  | XR.pinf => XR.pinf
  | XR.ninf => XR.ninf
  | XR.nan => XR.nan

/-- Whether an extended value is an ordinary finite number. -/
def XR.isFinite : XR → Bool
  | XR.fin _ => true
  | _ => false

@[simp]
theorem XR.fin_ne_pinf (q : ℚ) : XR.fin q ≠ XR.pinf := by
  intro h
  cases h

@[simp]
theorem XR.ninf_ne_pinf : XR.ninf ≠ XR.pinf := by
  intro h
  cases h

@[simp]
theorem XR.pinf_ne_pinf_iff : (XR.pinf ≠ XR.pinf) = False := by
  simp

/-- A bound interval as the problem stores it: (lower, upper), with the
infinity sentinels meaning unbounded on that side. -/
abbrev Interval : Type := XR × XR

/-- One component of the synthesized evaluation point, as src/tnlp.cc
lines 139-158 compute it: if neither stored bound equals the +infinity
sentinel the code sets the component to (upper - lower) / 2; otherwise,
if the lower bound differs from +infinity it uses the lower bound, and
otherwise the upper bound.  Note that both tests compare against
+infinity only, so a lower bound of -infinity passes the first test. -/
def synthComponent (b : Interval) : XR :=
  if b.1 ≠ XR.pinf ∧ b.2 ≠ XR.pinf then XR.div2 (XR.sub b.2 b.1)
  else if b.1 ≠ XR.pinf then b.1
  else b.2

/-- The synthesized-point component as the specification states it:
the interval midpoint when both bounds are finite, the single finite
bound when exactly one side is finite, and 0 when both sides are
infinite. -/
def specSynthComponent : Interval → XR
  | (XR.fin a, XR.fin b) => XR.fin ((a + b) / 2)
  | (XR.fin a, _) => XR.fin a
  | (_, XR.fin b) => XR.fin b
  | _ => XR.fin 0

/-- The synthesized evaluation point of src/tnlp.cc lines 130-159: one
component per variable index below the input size, each read from the
bound-interval list at that index. -/
def synthPoint (bs : List Interval) (n : ℕ) : List XR :=
  (List.range n).map (fun i => synthComponent (bs.getD i (XR.fin 0, XR.fin 0)))

/-- C3 (code bug): on the bound interval [2, 4] the code computes
(4 - 2) / 2 = 1, the half-width, not the midpoint 3 its own comment
("evaluate at middle") and the specification call for; and on a doubly
infinite interval it returns -infinity where the specification says 0,
because it only ever compares bounds against the +infinity sentinel. -/
theorem synthComponent_deviates_from_spec :
    synthComponent (XR.fin 2, XR.fin 4) = XR.fin 1
    ∧ specSynthComponent (XR.fin 2, XR.fin 4) = XR.fin 3
    ∧ XR.fin (1 : ℚ) ≠ XR.fin 3
    ∧ synthComponent (XR.ninf, XR.pinf) = XR.ninf
    ∧ specSynthComponent (XR.ninf, XR.pinf) = XR.fin 0 := by
  refine ⟨?_, ?_, ?_, ?_, ?_⟩ <;>
    norm_num [synthComponent, specSynthComponent, XR.sub, XR.div2]

/-- C4 (code bug): on the bound interval (-infinity, 0] the code treats
the -infinity lower bound as finite (it is only compared against the
+infinity sentinel), computes (0 - (-infinity)) / 2 = +infinity, and so
produces a non-finite synthesized component; a doubly infinite interval
likewise yields -infinity. -/
theorem synthComponent_not_total :
    synthComponent (XR.ninf, XR.fin 0) = XR.pinf
    ∧ (synthComponent (XR.ninf, XR.fin 0)).isFinite = false
    ∧ (synthComponent (XR.ninf, XR.pinf)).isFinite = false := by
  refine ⟨rfl, rfl, rfl⟩

/-! ## Dense adapter (src/ipopt.cc) -/

/-- The problem functions the dense adapter consumes: the objective and
its gradient, as supplied by the problem model. -/
structure DenseProblem : Type where
  inputSize : ℕ
  cost : List ℚ → ℚ
  costGradient : List ℚ → List ℚ

/-- The dense adapter's evaluation buffers (cost_ and costGradient_ in
src/ipopt.cc), instrumented with counters of how many times the
underlying objective and gradient evaluations were invoked. -/
structure DenseCache : Type where
  cost : ℚ
  costGradient : List ℚ
  costEvalCount : ℕ
  gradientEvalCount : ℕ

/-- Tnlp::eval_f of src/ipopt.cc lines 229-242: when the new-point flag
is set, evaluate the objective into the cost buffer (counting one
underlying evaluation); then return the buffered cost. -/
def eval_f (P : DenseProblem) (st : DenseCache) (x : List ℚ) (new_x : Bool) :
    DenseCache × ℚ :=
  let st1 := if new_x then
               { st with cost := P.cost x, costEvalCount := st.costEvalCount + 1 }
             else st
  (st1, st1.cost)

/-- Tnlp::eval_grad_f of src/ipopt.cc lines 244-259: when the new-point
flag is set, evaluate the objective gradient into the gradient buffer;
then return the buffered gradient. -/
def eval_grad_f (P : DenseProblem) (st : DenseCache) (x : List ℚ) (new_x : Bool) :
    DenseCache × List ℚ :=
  let st1 := if new_x then
               { st with costGradient := P.costGradient x,
                         gradientEvalCount := st.gradientEvalCount + 1 }
             else st
  (st1, st1.costGradient)

/-- C5: cache correctness of the dense adapter.  Calling eval_f at a
point with the new-point flag and again at the same point without it
performs exactly one underlying objective evaluation; two calls with
the new-point flag set perform exactly two; a call without the
new-point flag leaves the buffers untouched and returns the cached
contents, for eval_f and eval_grad_f alike; and a call with the
new-point flag returns the freshly evaluated value. -/
theorem cache_correctness (P : DenseProblem) (st : DenseCache) (x y : List ℚ) :
    ((eval_f P (eval_f P st x true).1 x false).1.costEvalCount = st.costEvalCount + 1)
    ∧ ((eval_f P (eval_f P st x true).1 y true).1.costEvalCount = st.costEvalCount + 2)
    ∧ ((eval_f P st x false).1 = st ∧ (eval_f P st x false).2 = st.cost)
    ∧ ((eval_grad_f P st x false).1 = st
        ∧ (eval_grad_f P st x false).2 = st.costGradient)
    ∧ ((eval_f P st x true).2 = P.cost x)
    ∧ ((eval_grad_f P st x true).2 = P.costGradient x) := by
  simp [eval_f, eval_grad_f]

/-- The termination status enumeration of the solver engine, as the
switch in src/ipopt.cc lines 404-425 enumerates it. -/
inductive SolverReturn : Type
  | SUCCESS
  | MAXITER_EXCEEDED
  | CPUTIME_EXCEEDED
  | STOP_AT_TINY_STEP
  | STOP_AT_ACCEPTABLE_POINT
  | LOCAL_INFEASIBILITY
  | USER_REQUESTED_STOP
  | FEASIBLE_POINT_FOUND
  | DIVERGING_ITERATES
  | RESTORATION_FAILURE
  | ERROR_IN_STEP_COMPUTATION
  | INVALID_NUMBER_DETECTED
  | TOO_FEW_DEGREES_OF_FREEDOM
  | INVALID_OPTION
  | OUT_OF_MEMORY
  | INTERNAL_ERROR
deriving DecidableEq

/-- The final vectors the engine hands to finalize_solution. -/
structure FinalPoint : Type where
  x : List ℚ
  g : List ℚ
  lambda : List ℚ
  objValue : ℚ

/-- The numeric fields a Result or ResultWithWarnings carries after
FILL_RESULT in src/ipopt.cc lines 383-389. -/
structure ResultData : Type where
  x : List ℚ
  constraints : List ℚ
  lambda : List ℚ
  value : ℚ
deriving DecidableEq

/-- The solver outcome variants the adapter can store into
solver_.result_. -/
inductive SolveOutcome : Type
  | success (r : ResultData)
  | successWithWarnings (r : ResultData) (warnings : List String)
  | failure (reason : String)
deriving DecidableEq

/-- FILL_RESULT of src/ipopt.cc: copy the final point, constraint
values, multipliers and objective value into the result. -/
def fillResult (p : FinalPoint) : ResultData :=
  ⟨p.x, p.g, p.lambda, p.objValue⟩

/-- Tnlp::finalize_solution of src/ipopt.cc lines 392-427: the outcome
stored into solver_.result_ for each termination status.  The
USER_REQUESTED_STOP arm of the switch runs assert(0) and stores
nothing, so it yields none here. -/
def finalizeResult (status : SolverReturn) (p : FinalPoint) : Option SolveOutcome :=
  match status with
  | SolverReturn.FEASIBLE_POINT_FOUND => some (SolveOutcome.success (fillResult p))
  | SolverReturn.SUCCESS => some (SolveOutcome.success (fillResult p))
  | SolverReturn.STOP_AT_ACCEPTABLE_POINT =>
      some (SolveOutcome.successWithWarnings (fillResult p) ["Acceptable point"])
  | SolverReturn.MAXITER_EXCEEDED =>
      some (SolveOutcome.failure "Max iteration exceeded")
  | SolverReturn.STOP_AT_TINY_STEP =>
      some (SolveOutcome.failure "Algorithm proceeds with very little progress")
  | SolverReturn.LOCAL_INFEASIBILITY =>
      some (SolveOutcome.failure
        "Algorithm converged to a point of local infeasibility")
  | SolverReturn.DIVERGING_ITERATES =>
      some (SolveOutcome.failure "Iterate diverges")
  | SolverReturn.RESTORATION_FAILURE =>
      some (SolveOutcome.failure "Restoration phase failed")
  | SolverReturn.ERROR_IN_STEP_COMPUTATION =>
      some (SolveOutcome.failure
        "Unrecoverable error while Ipopt tried to compute the search direction")
  | SolverReturn.INVALID_NUMBER_DETECTED =>
      some (SolveOutcome.failure "Ipopt received an invalid number")
  | SolverReturn.INTERNAL_ERROR =>
      some (SolveOutcome.failure "Unknown internal error")
  | SolverReturn.TOO_FEW_DEGREES_OF_FREEDOM =>
      some (SolveOutcome.failure "Two few degrees of freedom")
  | SolverReturn.INVALID_OPTION =>
      some (SolveOutcome.failure "Invalid option")
  | SolverReturn.OUT_OF_MEMORY =>
      some (SolveOutcome.failure "Out of memory")
  | SolverReturn.CPUTIME_EXCEEDED =>
      some (SolveOutcome.failure "Cpu time exceeded")
  | SolverReturn.USER_REQUESTED_STOP => none

/-- Whether the unreachability assertion assert(0) of SWITCH_FATAL in
src/ipopt.cc fires for a status. -/
def fatalAssertTriggered (status : SolverReturn) : Bool :=
  status = SolverReturn.USER_REQUESTED_STOP

/-- The assertion at the end of finalize_solution: the stored result is
no longer SOLVER_NO_SOLUTION, i.e. some outcome was produced. -/
def finalAssertHolds (status : SolverReturn) (p : FinalPoint) : Bool :=
  (finalizeResult status p).isSome

/-- C6: outcome mapping of finalize_solution.  SUCCESS and
FEASIBLE_POINT_FOUND produce a Success filled with the final vectors;
STOP_AT_ACCEPTABLE_POINT produces a SuccessWithWarnings with the fixed
warning "Acceptable point"; each recoverable-failure status produces a
Failure with its fixed reason string; USER_REQUESTED_STOP triggers the
unreachability assertion and produces no recoverable Failure; and for
every status other than USER_REQUESTED_STOP exactly one outcome is
recorded, so the final assertion holds. -/
theorem outcome_mapping_totality (p : FinalPoint) :
    finalizeResult SolverReturn.SUCCESS p = some (SolveOutcome.success (fillResult p))
    ∧ finalizeResult SolverReturn.FEASIBLE_POINT_FOUND p
        = some (SolveOutcome.success (fillResult p))
    ∧ finalizeResult SolverReturn.STOP_AT_ACCEPTABLE_POINT p
        = some (SolveOutcome.successWithWarnings (fillResult p) ["Acceptable point"])
    ∧ finalizeResult SolverReturn.MAXITER_EXCEEDED p
        = some (SolveOutcome.failure "Max iteration exceeded")
    ∧ finalizeResult SolverReturn.STOP_AT_TINY_STEP p
        = some (SolveOutcome.failure "Algorithm proceeds with very little progress")
    ∧ finalizeResult SolverReturn.LOCAL_INFEASIBILITY p
        = some (SolveOutcome.failure
            "Algorithm converged to a point of local infeasibility")
    ∧ finalizeResult SolverReturn.DIVERGING_ITERATES p
        = some (SolveOutcome.failure "Iterate diverges")
    ∧ finalizeResult SolverReturn.RESTORATION_FAILURE p
        = some (SolveOutcome.failure "Restoration phase failed")
    ∧ finalizeResult SolverReturn.ERROR_IN_STEP_COMPUTATION p
        = some (SolveOutcome.failure
            "Unrecoverable error while Ipopt tried to compute the search direction")
    ∧ finalizeResult SolverReturn.INVALID_NUMBER_DETECTED p
        = some (SolveOutcome.failure "Ipopt received an invalid number")
    ∧ finalizeResult SolverReturn.INTERNAL_ERROR p
        = some (SolveOutcome.failure "Unknown internal error")
    ∧ finalizeResult SolverReturn.TOO_FEW_DEGREES_OF_FREEDOM p
        = some (SolveOutcome.failure "Two few degrees of freedom")
    ∧ finalizeResult SolverReturn.INVALID_OPTION p
        = some (SolveOutcome.failure "Invalid option")
    ∧ finalizeResult SolverReturn.OUT_OF_MEMORY p
        = some (SolveOutcome.failure "Out of memory")
    ∧ finalizeResult SolverReturn.CPUTIME_EXCEEDED p
        = some (SolveOutcome.failure "Cpu time exceeded")
    ∧ finalizeResult SolverReturn.USER_REQUESTED_STOP p = none
    ∧ (∀ s : SolverReturn,
        fatalAssertTriggered s = true ↔ s = SolverReturn.USER_REQUESTED_STOP)
    ∧ (∀ s : SolverReturn, s ≠ SolverReturn.USER_REQUESTED_STOP →
        finalAssertHolds s p = true) := by
  refine ⟨rfl, rfl, rfl, rfl, rfl, rfl, rfl, rfl, rfl, rfl, rfl, rfl, rfl, rfl,
    rfl, rfl, ?_, ?_⟩
  · intro s
    cases s <;> simp [fatalAssertTriggered]
  · intro s hs
    cases s <;> simp_all [finalAssertHolds, finalizeResult]

/-- What Tnlp::get_starting_point of src/ipopt.cc lines 178-213 leaves
behind: the failure reason stored into solver_.result_ (if any), the
boolean returned to the engine, the point buffer, and the bound
multiplier buffers. -/
structure StartingPointEffect : Type where
  failureReason : Option String
  returnValue : Bool
  buffer : List ℚ
  zLower : List ℚ
  zUpper : List ℚ
deriving DecidableEq

/-- Tnlp::get_starting_point: when the engine requests bound-multiplier
initialization both multiplier buffers are set to the constant 1; when
the problem has no starting point and the engine requests point
initialization, a SolverError with the fixed reason string is recorded
and false is returned; when the problem has no starting point and no
point initialization is requested the call succeeds without touching
the point buffer; otherwise the stored starting point is copied into
the point buffer. -/
def get_starting_point (startingPoint : Option (List ℚ)) (n : ℕ)
    (init_x init_z : Bool) (buffer zL zU : List ℚ) : StartingPointEffect :=
  let zL1 := if init_z then List.replicate n 1 else zL
  let zU1 := if init_z then List.replicate n 1 else zU
  match startingPoint, init_x with
  | none, true =>
      ⟨some "Ipopt method needs a starting point.", false, buffer, zL1, zU1⟩
  | none, false => ⟨none, true, buffer, zL1, zU1⟩
  | some p, _ => ⟨none, true, p, zL1, zU1⟩

/-- C7: missing starting point.  If the problem has no starting point
and the engine requests point initialization, get_starting_point
records a Failure with the fixed reason string and returns false to
the engine (which aborts the solve before any evaluation); if the
problem has a starting point, it is copied into the engine buffer and
the call returns true without recording a failure. -/
theorem missing_starting_point (startingPoint : Option (List ℚ)) (n : ℕ)
    (init_x init_z : Bool) (buffer zL zU : List ℚ) :
    (startingPoint = none → init_x = true →
      (get_starting_point startingPoint n init_x init_z buffer zL zU).failureReason
          = some "Ipopt method needs a starting point."
        ∧ (get_starting_point startingPoint n init_x init_z buffer zL zU).returnValue
          = false)
    ∧ (∀ p, startingPoint = some p →
        (get_starting_point startingPoint n init_x init_z buffer zL zU).failureReason
            = none
        ∧ (get_starting_point startingPoint n init_x init_z buffer zL zU).returnValue
            = true
        ∧ (get_starting_point startingPoint n init_x init_z buffer zL zU).buffer
            = p) := by
  constructor
  · intro h1 h2
    subst h1
    subst h2
    exact ⟨rfl, rfl⟩
  · intro p hp
    subst hp
    exact ⟨rfl, rfl, rfl⟩

/-- Tnlp::get_scaling_parameters of src/ipopt.cc lines 119-139, for the
constraint part: the loop runs i over [0, m) and, for each i, runs j
over the i-th per-constraint scale vector writing g_scaling[i] on every
iteration, so slot i ends at the last scale of constraint i (or stays
unwritten when that vector is empty); when i reaches past the end of
the per-constraint scale list the read is out of bounds, modelled as
none.  The variable part copies the argument scales through
unchanged. -/
def get_scaling_parameters (argScales : List ℚ) (scalesVector : List (List ℚ))
    (m : ℕ) : Option (List ℚ × List (Option ℚ)) :=
  if m ≤ scalesVector.length then
    some (argScales, (List.range m).map (fun i => (scalesVector.getD i []).getLast?))
  else none

/-- The constraint-scale emission as the specification states it: the
declared scales flattened 1:1 in constraint-declaration order, then
component order — the same flattening order as the bounds query. -/
def specGScaling (scalesVector : List (List ℚ)) : List ℚ :=
  scalesVector.flatten

/-- C8 (code bug): on a problem with a size-1 constraint scaled [2] and
a size-2 constraint scaled [3, 4] the flattened emission the claim
requires is [2, 3, 4] (m = 3), but the code's loop indexes the
per-constraint scale list by flattened row index, overwrites slot i
with the last scale of constraint i, and reads past the end of the
list once i reaches 2, so the call is undefined; even the two slots it
does write hold [2, 4], dropping the scale 3. -/
theorem scaling_emission_bug :
    get_scaling_parameters [1] [[2], [3, 4]] 3 = none
    ∧ specGScaling [[2], [3, 4]] = [2, 3, 4]
    ∧ (List.range 2).map
        (fun i => (([[2], [3, 4]] : List (List ℚ)).getD i []).getLast?)
        = [some 2, some 4] := by
  refine ⟨by simp [get_scaling_parameters], by simp [specGScaling],
    by simp [List.range_succ]⟩

/-- The constraint output size total the dense adapter reports as m in
Tnlp::get_nlp_info (src/ipopt.cc lines 83-94): the sum of every
constraint's output size. -/
def constraintsOutputSizeOf (sizes : List ℕ) : ℕ :=
  sizes.sum

/-- The asserted precondition of Tnlp::eval_g and Tnlp::eval_jac_g
(src/ipopt.cc lines 268 and 306): the engine-supplied m equals the
number of constraint functions. -/
def evalGAssert (sizes : List ℕ) (m : ℕ) : Prop :=
  sizes.length = m

instance (sizes : List ℕ) (m : ℕ) : Decidable (evalGAssert sizes m) := by
  unfold evalGAssert
  infer_instance

/-- Every positive-size list whose length equals its sum is all ones. -/
theorem length_le_sum_of_one_le (sizes : List ℕ) (h : ∀ s ∈ sizes, 1 ≤ s) :
    sizes.length ≤ sizes.sum := by
  induction sizes with
  | nil => simp
  | cons a t ih =>
      have ha : 1 ≤ a := h a (by simp)
      have ht : t.length ≤ t.sum := ih (fun s hs => h s (by simp [hs]))
      simp only [List.length_cons, List.sum_cons]
      omega

/-- Every positive-size list sums to its length exactly when it is all
ones. -/
theorem sum_eq_length_iff_all_one :
    ∀ sizes : List ℕ, (∀ s ∈ sizes, 1 ≤ s) →
      (sizes.sum = sizes.length ↔ ∀ s ∈ sizes, s = 1)
  | [], _ => by simp
  | a :: t, h => by
      have ha : 1 ≤ a := h a (by simp)
      have ht : t.length ≤ t.sum :=
        length_le_sum_of_one_le t (fun u hu => h u (by simp [hu]))
      have iht := sum_eq_length_iff_all_one t (fun u hu => h u (by simp [hu]))
      simp only [List.sum_cons, List.length_cons, List.mem_cons]
      constructor
      · intro heq
        have ha1 : a = 1 := by omega
        have hteq : t.sum = t.length := by omega
        intro s hs
        rcases hs with rfl | hs2
        · exact ha1
        · exact (iht.mp hteq) s hs2
      · intro hall
        have ha1 : a = 1 := hall a (Or.inl rfl)
        have hteq : t.sum = t.length := iht.mpr (fun u hu => hall u (Or.inr hu))
        omega

/-- C9: dense callback precondition consistency.  The m that
get_nlp_info reports is the sum of the constraint output sizes, while
eval_g and eval_jac_g assert that m equals the number of constraint
functions; given that every constraint has at least one output
component, the assertion holds on the reported m exactly when every
constraint has output size 1. -/
theorem dense_precondition_consistency (sizes : List ℕ)
    (h : ∀ s ∈ sizes, 1 ≤ s) :
    evalGAssert sizes (constraintsOutputSizeOf sizes) ↔ ∀ s ∈ sizes, s = 1 := by
  unfold evalGAssert constraintsOutputSizeOf
  rw [eq_comm]
  exact sum_eq_length_iff_all_one sizes h

/-- C9 witness: on two constraints of output size 1 the reported m
satisfies the asserted precondition, and indeed every size is 1. -/
theorem dense_precondition_consistency_holds :
    evalGAssert [1, 1] (constraintsOutputSizeOf [1, 1])
      ↔ ∀ s ∈ ([1, 1] : List ℕ), s = 1 :=
  dense_precondition_consistency [1, 1] (by decide)

/-! ## Sparse adapter (src/tnlp.cc) -/

/-- A stored entry of a sparse matrix: ((row, column), value). -/
abbrev Entry : Type := (ℕ × ℕ) × ℚ

/-- A constraint of the sparse problem: its output size and its sparse
Jacobian evaluation, giving the list of entries the returned sparse
matrix stores at a point. -/
structure SparseConstraint : Type where
  outputSize : ℕ
  jacAt : List XR → List Entry

/-- The sparse problem as the adapter consumes it: input size, optional
starting point, constraints in declaration order, and the per-constraint
bound-interval lists. -/
structure SparseProblem : Type where
  inputSize : ℕ
  startingPoint : Option (List XR)
  constraints : List SparseConstraint
  boundsVector : List (List Interval)

/-- Row order on entries, the order of rows inside one column of a
compressed column-major sparse matrix. -/
def rowLE (a b : Entry) : Prop :=
  a.1.1 ≤ b.1.1

instance : DecidableRel rowLE :=
  fun a b => Nat.decLe a.1.1 b.1.1

instance : IsTotal Entry rowLE :=
  ⟨fun a b => Nat.le_total a.1.1 b.1.1⟩

instance : IsTrans Entry rowLE :=
  ⟨fun _ _ _ hab hbc => Nat.le_trans hab hbc⟩

/-- The entries of one column. -/
def colEntries (es : List Entry) (k : ℕ) : List Entry :=
  es.filter (fun e => e.1.2 = k)

/-- Canonical iteration order of a compressed column-major Eigen sparse
matrix with n columns holding the entries es: columns in ascending
order, rows in ascending order inside each column.  (Modelled from the
library semantics of Eigen used by src/tnlp.cc; faithful when the
stored coordinates are distinct, which holds for a matrix returned by
one Jacobian evaluation and for triplet assembly over disjoint row
blocks.) -/
def eigenIter (es : List Entry) (n : ℕ) : List Entry :=
  (List.range n).flatMap (fun k => List.insertionSort rowLE (colEntries es k))

/-- The per-constraint evaluation point of the structural Jacobian pass
(src/tnlp.cc lines 130-161): the starting point when one exists,
otherwise the synthesized point over the constraint's bound-interval
list. -/
def structuralPointFor (P : SparseProblem) (cid : ℕ) : List XR :=
  match P.startingPoint with
  | some p => p
  | none => synthPoint (P.boundsVector.getD cid []) P.inputSize

/-- The compressed per-constraint Jacobian the structural pass stores
into constraintJacobians_ (src/tnlp.cc lines 169-171): the Jacobian
evaluated at the structural point, in compressed iteration order. -/
def storedJacobian (P : SparseProblem) (cid : ℕ) (c : SparseConstraint) :
    List Entry :=
  eigenIter (c.jacAt (structuralPointFor P cid)) P.inputSize

/-- The constraints annotated with their declaration index and running
output offset (the idx accumulator of src/tnlp.cc line 181). -/
def annotate : List SparseConstraint → ℕ → ℕ → List (ℕ × ℕ × SparseConstraint)
  | [], _, _ => []
  | c :: cs, cid, off => (cid, off, c) :: annotate cs (cid + 1) (off + c.outputSize)

/-- Shift a local entry to its global row (src/tnlp.cc line 176:
row = idx + it.row(), column unchanged). -/
def shiftRow (off : ℕ) (e : Entry) : Entry :=
  ((off + e.1.1, e.1.2), e.2)

/-- The global triplet list the structural pass assembles
(src/tnlp.cc lines 118-182): for each constraint in declaration order,
its stored entries shifted to global rows. -/
def coefficients (P : SparseProblem) : List Entry :=
  (annotate P.constraints 0 0).flatMap
    (fun t => (storedJacobian P t.1 t.2.2).map (shiftRow t.2.1))

/-- The (row, column) list the structural eval_jac_g call emits into
iRow/jCol (src/tnlp.cc lines 190-206): the canonical column-major
iteration of the merged Jacobian built from the triplet list by
setFromTriplets. -/
def structuralCoords (P : SparseProblem) : List (ℕ × ℕ) :=
  (eigenIter (coefficients P) P.inputSize).map Prod.fst

/-- The value an entry list stores at a coordinate (0 when absent). -/
def lookupVal (es : List Entry) (rc : ℕ × ℕ) : ℚ :=
  match es.find? (fun e => e.1 = rc) with
  | some e => e.2
  | none => 0

/-- Modelled from the spec: the in-place numeric refill of a stored
per-constraint Jacobian.  src/tnlp.cc lines 226-229 multiply the stored
matrix by 0 (keeping its structure) and call the external in-place
Jacobian evaluation, which is not part of this repository; per the
specification (sections 4.3.6 and 4.4) that call refills values at the
stored positions, preserving the frozen layout, so every stored entry
keeps its coordinate and takes the value the Jacobian at the new point
has there (0 when it has none). -/
def refreshedJacobian (P : SparseProblem) (cid : ℕ) (c : SparseConstraint)
    (x : List XR) : List Entry :=
  (storedJacobian P cid c).map (fun e => (e.1, lookupVal (c.jacAt x) e.1))

/-- The write sequence of the numeric eval_jac_g call in column-major
storage order (src/tnlp.cc lines 238-252): for each global column, for
each constraint in declaration order, that constraint's stored entries
of the column in iteration order; each written value is tagged here
with the global coordinate of the stored entry it comes from. -/
def numericPairs (P : SparseProblem) (x : List XR) : List Entry :=
  (List.range P.inputSize).flatMap (fun k =>
    (annotate P.constraints 0 0).flatMap (fun t =>
      (colEntries (refreshedJacobian P t.1 t.2.2 x) k).map (shiftRow t.2.1)))

/-- The values the numeric eval_jac_g call writes, in write order. -/
def numericValues (P : SparseProblem) (x : List XR) : List ℚ :=
  (numericPairs P x).map Prod.snd

/-- Well-formedness of one constraint's structural evaluation: every
stored entry lies inside the constraint's block (row below its output
size, column below the input size), and the stored coordinates are
pairwise distinct (a sparse matrix stores each coordinate once). -/
def WFConstraint (P : SparseProblem) (cid : ℕ) (c : SparseConstraint) : Prop :=
  (∀ e ∈ c.jacAt (structuralPointFor P cid),
      e.1.1 < c.outputSize ∧ e.1.2 < P.inputSize)
    ∧ (c.jacAt (structuralPointFor P cid)).Pairwise (fun a b => a.1 ≠ b.1)

/-- Well-formedness of the whole sparse problem's structural pass. -/
def WFSparse (P : SparseProblem) : Prop :=
  ∀ t ∈ annotate P.constraints 0 0, WFConstraint P t.1 t.2.2

instance (P : SparseProblem) (cid : ℕ) (c : SparseConstraint) :
    Decidable (WFConstraint P cid c) := by
  unfold WFConstraint
  infer_instance

instance (P : SparseProblem) : Decidable (WFSparse P) := by
  unfold WFSparse
  infer_instance

/-! ### Fill-order equality of the sparse adapter (C1) -/

theorem mem_colEntries {es : List Entry} {k : ℕ} {e : Entry} :
    e ∈ colEntries es k ↔ e ∈ es ∧ e.1.2 = k := by
  simp [colEntries]

theorem colEntries_map (g : Entry → Entry) (hg : ∀ e, (g e).1.2 = e.1.2)
    (es : List Entry) (k : ℕ) :
    colEntries (es.map g) k = (colEntries es k).map g := by
  unfold colEntries
  rw [List.filter_map]
  congr 1
  apply List.filter_congr
  intro e _
  simp [Function.comp, hg e]

theorem flatMapCongr {α β : Type} (l : List α) (f g : α → List β)
    (h : ∀ a ∈ l, f a = g a) : l.flatMap f = l.flatMap g := by
  induction l with
  | nil => rfl
  | cons a t ih =>
      simp only [List.flatMap_cons]
      rw [h a (by simp), ih (fun b hb => h b (List.mem_cons_of_mem a hb))]

theorem flatMap_range_single {α : Type} (g : ℕ → List α) (n k : ℕ) (hk : k < n)
    (h : ∀ j, j ≠ k → g j = []) : (List.range n).flatMap g = g k := by
  induction n with
  | zero => omega
  | succ m ih =>
      rw [List.range_succ, List.flatMap_append]
      rcases Nat.lt_or_ge k m with hkm | hkm
      · rw [ih hkm]
        simp [h m (by omega)]
      · have hk2 : k = m := by omega
        subst hk2
        have hnil : (List.range k).flatMap g = [] := by
          apply List.flatMap_eq_nil_iff.mpr
          intro j hj
          exact h j (by have := List.mem_range.mp hj; omega)
        simp [hnil]

theorem colEntries_eigenIter (es : List Entry) (n k : ℕ) (hk : k < n) :
    colEntries (eigenIter es n) k = List.insertionSort rowLE (colEntries es k) := by
  unfold eigenIter colEntries
  rw [List.filter_flatMap]
  rw [flatMap_range_single _ n k hk ?_]
  · rw [List.filter_eq_self.mpr]
    intro e he
    rw [List.mem_insertionSort] at he
    simp only [decide_eq_true_eq]
    exact (mem_colEntries.mp he).2
  · intro j hj
    rw [List.filter_eq_nil_iff]
    intro e he
    rw [List.mem_insertionSort] at he
    simp only [decide_eq_true_eq]
    rw [(mem_colEntries.mp he).2]
    exact hj

theorem mem_eigenIter {es : List Entry} {n : ℕ} {e : Entry}
    (h : e ∈ eigenIter es n) : e ∈ es ∧ e.1.2 < n := by
  unfold eigenIter at h
  rw [List.mem_flatMap] at h
  obtain ⟨j, hj, he⟩ := h
  rw [List.mem_insertionSort] at he
  have hm := mem_colEntries.mp he
  exact ⟨hm.1, by rw [hm.2]; exact List.mem_range.mp hj⟩

theorem pairwise_rowLE_map_shiftRow {l : List Entry} (off : ℕ)
    (h : List.Pairwise rowLE l) : List.Pairwise rowLE (l.map (shiftRow off)) := by
  rw [List.pairwise_map]
  exact h.imp (fun hab => Nat.add_le_add_left hab off)

/-- One constraint's contribution to a global column of the merged
Jacobian: its stored entries of that column, shifted to global rows. -/
def storedChunk (P : SparseProblem) (k : ℕ) (t : ℕ × ℕ × SparseConstraint) :
    List Entry :=
  (colEntries (storedJacobian P t.1 t.2.2) k).map (shiftRow t.2.1)

theorem storedJacobian_mem {P : SparseProblem} {cid : ℕ} {c : SparseConstraint}
    {e : Entry} (h : e ∈ storedJacobian P cid c) :
    e ∈ c.jacAt (structuralPointFor P cid) :=
  (mem_eigenIter h).1

theorem storedChunk_row_bounds (P : SparseProblem) (k : ℕ)
    (t : ℕ × ℕ × SparseConstraint) (hwf : WFConstraint P t.1 t.2.2) :
    ∀ e ∈ storedChunk P k t, t.2.1 ≤ e.1.1 ∧ e.1.1 < t.2.1 + t.2.2.outputSize := by
  intro e he
  unfold storedChunk at he
  obtain ⟨e0, he0, rfl⟩ := List.mem_map.mp he
  have h1 := storedJacobian_mem (mem_colEntries.mp he0).1
  have h2 := (hwf.1 e0 h1).1
  show t.2.1 ≤ t.2.1 + e0.1.1 ∧ t.2.1 + e0.1.1 < t.2.1 + t.2.2.outputSize
  omega

theorem storedChunk_pairwise (P : SparseProblem) (k : ℕ)
    (t : ℕ × ℕ × SparseConstraint) :
    List.Pairwise rowLE (storedChunk P k t) := by
  unfold storedChunk
  apply pairwise_rowLE_map_shiftRow
  rcases Nat.lt_or_ge k P.inputSize with hk | hk
  · unfold storedJacobian
    rw [colEntries_eigenIter _ _ _ hk]
    exact List.sorted_insertionSort rowLE _
  · have hnil : colEntries (storedJacobian P t.1 t.2.2) k = [] := by
      unfold colEntries
      rw [List.filter_eq_nil_iff]
      intro e he
      simp only [decide_eq_true_eq]
      have := (mem_eigenIter he).2
      omega
    rw [hnil]
    exact List.Pairwise.nil

theorem chunks_pairwise_and_lb (P : SparseProblem) (k : ℕ) :
    ∀ (cs : List SparseConstraint) (cid off : ℕ),
      (∀ t ∈ annotate cs cid off, WFConstraint P t.1 t.2.2) →
      List.Pairwise rowLE ((annotate cs cid off).flatMap (storedChunk P k))
        ∧ ∀ e ∈ (annotate cs cid off).flatMap (storedChunk P k), off ≤ e.1.1
  | [], cid, off, _ => by simp [annotate]
  | c :: cs, cid, off, hw => by
      have hwhead : WFConstraint P cid c := by
        apply hw (cid, off, c)
        simp [annotate]
      have ih := chunks_pairwise_and_lb P k cs (cid + 1) (off + c.outputSize)
        (fun t ht => hw t (by
          simp only [annotate, List.mem_cons]
          exact Or.inr ht))
      simp only [annotate, List.flatMap_cons]
      constructor
      · rw [List.pairwise_append]
        refine ⟨storedChunk_pairwise P k (cid, off, c), ih.1, ?_⟩
        intro a ha b hb
        have hA := storedChunk_row_bounds P k (cid, off, c) hwhead a ha
        have hB := ih.2 b hb
        show a.1.1 ≤ b.1.1
        simp only at hA hB
        omega
      · intro e he
        rw [List.mem_append] at he
        rcases he with he | he
        · exact (storedChunk_row_bounds P k (cid, off, c) hwhead e he).1
        · have := ih.2 e he
          omega

theorem colEntries_coefficients (P : SparseProblem) (k : ℕ) :
    colEntries (coefficients P) k
      = (annotate P.constraints 0 0).flatMap (storedChunk P k) := by
  unfold coefficients colEntries
  rw [List.filter_flatMap]
  apply flatMapCongr
  intro t _
  show colEntries ((storedJacobian P t.1 t.2.2).map (shiftRow t.2.1)) k
    = storedChunk P k t
  rw [colEntries_map (shiftRow t.2.1) (fun e => rfl)]
  rfl

theorem structural_column (P : SparseProblem) (h : WFSparse P) (k : ℕ) :
    List.insertionSort rowLE (colEntries (coefficients P) k)
      = (annotate P.constraints 0 0).flatMap (storedChunk P k) := by
  rw [colEntries_coefficients]
  exact List.Sorted.insertionSort_eq
    (chunks_pairwise_and_lb P k P.constraints 0 0 h).1

theorem structuralCoords_decomp (P : SparseProblem) (h : WFSparse P) :
    structuralCoords P
      = (List.range P.inputSize).flatMap (fun k =>
          ((annotate P.constraints 0 0).flatMap (storedChunk P k)).map Prod.fst) := by
  unfold structuralCoords eigenIter
  rw [List.map_flatMap]
  apply flatMapCongr
  intro k _
  rw [structural_column P h k]

theorem numericPairs_coords (P : SparseProblem) (x : List XR) :
    (numericPairs P x).map Prod.fst
      = (List.range P.inputSize).flatMap (fun k =>
          ((annotate P.constraints 0 0).flatMap (storedChunk P k)).map Prod.fst) := by
  unfold numericPairs
  rw [List.map_flatMap]
  apply flatMapCongr
  intro k _
  rw [List.map_flatMap, List.map_flatMap]
  apply flatMapCongr
  intro t _
  unfold refreshedJacobian storedChunk
  rw [colEntries_map (fun e => (e.1, lookupVal (t.2.2.jacAt x) e.1)) (fun e => rfl)]
  rw [List.map_map, List.map_map, List.map_map]
  rfl

/-- C1: fill-order equality of the sparse adapter.  For a well-formed
problem, the numeric eval_jac_g call writes exactly as many values as
the frozen sparsity pattern has coordinates, and the i-th written value
comes from the entry at the i-th (row, column) coordinate of the
structural emission, at every evaluation point. -/
theorem fill_order_equality (P : SparseProblem) (x : List XR) (h : WFSparse P) :
    (numericPairs P x).map Prod.fst = structuralCoords P
    ∧ (numericValues P x).length = (structuralCoords P).length := by
  have hcoords : (numericPairs P x).map Prod.fst = structuralCoords P := by
    rw [numericPairs_coords P x, structuralCoords_decomp P h]
  refine ⟨hcoords, ?_⟩
  unfold numericValues
  rw [List.length_map, ← hcoords, List.length_map]

/-- A concrete well-formed sparse problem: two variables, a size-1
constraint with entries in both columns and a size-2 constraint with
one entry per row. -/
def exC1 : SparseProblem :=
  ⟨2, some [XR.fin 0, XR.fin 0],
    [⟨1, fun _ => [((0, 0), 2), ((0, 1), 3)]⟩,
     ⟨2, fun _ => [((0, 1), 4), ((1, 0), 5)]⟩],
    [[], []]⟩

/-- C1 witness: fill-order equality evaluated on the concrete problem
exC1 at the point (1, 1). -/
theorem fill_order_equality_concrete :
    (numericPairs exC1 [XR.fin 1, XR.fin 1]).map Prod.fst = structuralCoords exC1
    ∧ (numericValues exC1 [XR.fin 1, XR.fin 1]).length
        = (structuralCoords exC1).length :=
  fill_order_equality exC1 [XR.fin 1, XR.fin 1] (by decide)

/-! ### Repeated structural Jacobian queries (C2) -/

/-- The sparse Tnlp state the structural eval_jac_g branch touches:
whether jacobian_ has been allocated, the per-constraint Jacobian
storage constraintJacobians_, and a counter of synthesized-point
Jacobian evaluations performed. -/
structure SparseTnlpState : Type where
  jacobianAllocated : Bool
  constraintJacobians : List (List Entry)
  jacEvalCount : ℕ
deriving DecidableEq

/-- The state before any eval_jac_g call. -/
def initialSparseState : SparseTnlpState :=
  ⟨false, [], 0⟩

/-- The per-constraint Jacobians one structural pass evaluates and
pushes onto constraintJacobians_. -/
def freshConstraintJacobians (P : SparseProblem) : List (List Entry) :=
  (annotate P.constraints 0 0).map (fun t => storedJacobian P t.1 t.2.2)

/-- The structural eval_jac_g call (values == NULL) of src/tnlp.cc
lines 93-209.  The branch body runs unconditionally on every such
call: it evaluates every constraint's Jacobian at the synthesized
point (counted here), appends the results to constraintJacobians_
(push_back in a loop), rebuilds the local triplet list, overwrites
jacobian_ by setFromTriplets, and emits the merged structure's
coordinates; only the allocation of jacobian_ is guarded. -/
def structuralEvalJacG (P : SparseProblem) (st : SparseTnlpState) :
    SparseTnlpState × List (ℕ × ℕ) :=
  (⟨true, st.constraintJacobians ++ freshConstraintJacobians P,
      st.jacEvalCount + P.constraints.length⟩,
    structuralCoords P)

/-- A concrete one-constraint sparse problem for the repeated
structural query. -/
def exC2 : SparseProblem :=
  ⟨1, some [XR.fin 0], [⟨1, fun _ => [((0, 0), 1)]⟩], [[]]⟩

/-- C2 counterexample: on the concrete problem exC2, the second
structural eval_jac_g call does not leave the synthesized-point
evaluation count and the per-constraint Jacobian storage unchanged —
it re-evaluates and appends a second copy. -/
theorem sparsity_freeze_second_call_reevaluates :
    ¬ ((structuralEvalJacG exC2
          (structuralEvalJacG exC2 initialSparseState).1).1.jacEvalCount
        = (structuralEvalJacG exC2 initialSparseState).1.jacEvalCount
      ∧ (structuralEvalJacG exC2
          (structuralEvalJacG exC2 initialSparseState).1).1.constraintJacobians
        = (structuralEvalJacG exC2 initialSparseState).1.constraintJacobians) := by
  decide

/-- C2 amended: two structural eval_jac_g calls emit identical
coordinate lists (the emission depends only on the problem), but the
second call re-performs the synthesized-point Jacobian evaluation of
every constraint and appends a second copy of every per-constraint
Jacobian to the storage. -/
theorem sparsity_freeze_amended (P : SparseProblem) (st : SparseTnlpState) :
    (structuralEvalJacG P (structuralEvalJacG P st).1).2
        = (structuralEvalJacG P st).2
    ∧ (structuralEvalJacG P st).2 = structuralCoords P
    ∧ (structuralEvalJacG P (structuralEvalJacG P st).1).1.jacEvalCount
        = st.jacEvalCount + 2 * P.constraints.length
    ∧ (structuralEvalJacG P (structuralEvalJacG P st).1).1.constraintJacobians
        = st.constraintJacobians
            ++ freshConstraintJacobians P ++ freshConstraintJacobians P := by
  refine ⟨rfl, rfl, ?_, ?_⟩
  · show st.jacEvalCount + P.constraints.length + P.constraints.length
        = st.jacEvalCount + 2 * P.constraints.length
    omega
  · show st.constraintJacobians ++ freshConstraintJacobians P
          ++ freshConstraintJacobians P
        = st.constraintJacobians
            ++ freshConstraintJacobians P ++ freshConstraintJacobians P
    rfl

/-! ### Reported non-zero count versus emitted pattern length (C10) -/

/-- The evaluation point Tnlp::get_nlp_info uses for counting non-zeros
(src/tnlp.cc lines 48-55): the starting point when one exists,
otherwise the zero vector. -/
def nlpInfoPoint (P : SparseProblem) : List XR :=
  match P.startingPoint with
  | some p => p
  | none => List.replicate P.inputSize (XR.fin 0)

/-- The nnz_jac_g count of Tnlp::get_nlp_info (src/tnlp.cc lines
57-71): the sum over all constraints of the number of entries their
Jacobian stores at the info point. -/
def nnzJacG (P : SparseProblem) : ℕ :=
  (P.constraints.map (fun c => (c.jacAt (nlpInfoPoint P)).length)).sum

/-- A concrete problem with no starting point whose constraint Jacobian
stores an entry at the bounds-derived synthesized point (1, from the
interval with lower bound 1 and no upper bound) but none at the zero
vector. -/
def exC10 : SparseProblem :=
  ⟨1, none,
    [⟨1, fun p =>
        match p with
        | [XR.fin q] => if q = 1 then [((0, 0), 1)] else []
        | _ => []⟩],
    [[(XR.fin 1, XR.pinf)]]⟩

/-- C10 counterexample: exC10 is well formed, get_nlp_info (evaluating
at the zero vector) reports 0 non-zeros, and the structural eval_jac_g
call (evaluating at the bounds-derived point) emits 1 coordinate. -/
theorem nnz_consistency_cex :
    WFSparse exC10 ∧ nnzJacG exC10 ≠ (structuralCoords exC10).length := by
  decide

theorem sum_indicator (c : ℕ) :
    ∀ n, c < n → ((List.range n).map (fun k => if c = k then 1 else 0)).sum = 1 := by
  intro n
  induction n with
  | zero => omega
  | succ m ih =>
      intro hc
      rw [List.range_succ, List.map_append, List.sum_append]
      rcases Nat.lt_or_ge c m with h | h
      · rw [ih h]
        have : (if c = m then (1 : ℕ) else 0) = 0 := by
          simp
          omega
        simp [this]
      · have hcm : c = m := by omega
        subst hcm
        have hz : ((List.range c).map (fun k => if c = k then 1 else 0)).sum = 0 := by
          apply List.sum_eq_zero
          intro x hx
          obtain ⟨j, hj, rfl⟩ := List.mem_map.mp hx
          have hjc := List.mem_range.mp hj
          simp
          omega
        simp [hz]

theorem colEntries_length_cons (e : Entry) (es : List Entry) (k : ℕ) :
    (colEntries (e :: es) k).length
      = (if e.1.2 = k then 1 else 0) + (colEntries es k).length := by
  unfold colEntries
  rw [List.filter_cons]
  by_cases h : e.1.2 = k
  · simp [h]
    omega
  · simp [h]

theorem sum_colEntries_length :
    ∀ (es : List Entry) (n : ℕ), (∀ e ∈ es, e.1.2 < n) →
      ((List.range n).map (fun k => (colEntries es k).length)).sum = es.length
  | [], n, _ => by simp [colEntries]
  | e :: es, n, h => by
      have ih := sum_colEntries_length es n
        (fun u hu => h u (List.mem_cons_of_mem e hu))
      have hc := h e (by simp)
      calc ((List.range n).map (fun k => (colEntries (e :: es) k).length)).sum
          = ((List.range n).map
              (fun k => (if e.1.2 = k then 1 else 0)
                + (colEntries es k).length)).sum := by
            simp only [colEntries_length_cons]
        _ = ((List.range n).map (fun k => if e.1.2 = k then 1 else 0)).sum
            + ((List.range n).map (fun k => (colEntries es k).length)).sum :=
            List.sum_map_add
        _ = 1 + es.length := by rw [sum_indicator e.1.2 n hc, ih]
        _ = (e :: es).length := by simp [Nat.add_comm]

theorem length_eigenIter (es : List Entry) (n : ℕ)
    (h : ∀ e ∈ es, e.1.2 < n) : (eigenIter es n).length = es.length := by
  unfold eigenIter
  rw [List.length_flatMap]
  have hmap : (List.range n).map
        (List.length ∘ fun k => List.insertionSort rowLE (colEntries es k))
      = (List.range n).map (fun k => (colEntries es k).length) := by
    apply List.map_congr_left
    intro k _
    exact List.length_insertionSort rowLE _
  rw [hmap]
  exact sum_colEntries_length es n h

theorem annotate_map_snd :
    ∀ (cs : List SparseConstraint) (cid off : ℕ),
      (annotate cs cid off).map (fun t => t.2.2) = cs
  | [], _, _ => rfl
  | c :: cs, cid, off => by
      simp only [annotate, List.map_cons]
      rw [annotate_map_snd cs (cid + 1) (off + c.outputSize)]

/-- C10 amended: when the problem has a starting point, the non-zero
count get_nlp_info reports equals the length of the structural
eval_jac_g emission, for every well-formed problem (both are computed
at the starting point, and the disjoint row blocks keep triplet
assembly from merging anything). -/
theorem nnz_consistency_with_starting_point (P : SparseProblem) (p : List XR)
    (hs : P.startingPoint = some p) (h : WFSparse P) :
    nnzJacG P = (structuralCoords P).length := by
  have hpt : ∀ cid, structuralPointFor P cid = p := fun cid => by
    simp [structuralPointFor, hs]
  have hip : nlpInfoPoint P = p := by simp [nlpInfoPoint, hs]
  have h1 : (structuralCoords P).length = (coefficients P).length := by
    unfold structuralCoords
    rw [List.length_map]
    apply length_eigenIter
    intro e he
    unfold coefficients at he
    rw [List.mem_flatMap] at he
    obtain ⟨t, _, he⟩ := he
    obtain ⟨e0, he0, rfl⟩ := List.mem_map.mp he
    show e0.1.2 < P.inputSize
    exact (mem_eigenIter he0).2
  have h2 : (coefficients P).length
      = ((annotate P.constraints 0 0).map
          (fun t => (t.2.2.jacAt p).length)).sum := by
    unfold coefficients
    rw [List.length_flatMap]
    congr 1
    apply List.map_congr_left
    intro t ht
    show ((storedJacobian P t.1 t.2.2).map (shiftRow t.2.1)).length
      = (t.2.2.jacAt p).length
    rw [List.length_map]
    unfold storedJacobian
    rw [hpt t.1]
    apply length_eigenIter
    intro e he
    rw [← hpt t.1] at he
    exact ((h t ht).1 e he).2
  have h3 : ((annotate P.constraints 0 0).map
        (fun t => (t.2.2.jacAt p).length)).sum
      = (P.constraints.map (fun c => (c.jacAt p).length)).sum := by
    conv_rhs => rw [← annotate_map_snd P.constraints 0 0, List.map_map]
    rfl
  unfold nnzJacG
  rw [hip, h1, h2, h3]

/-- A concrete well-formed one-constraint problem with a starting
point. -/
def exC10w : SparseProblem :=
  ⟨1, some [XR.fin 0], [⟨1, fun _ => [((0, 0), 1)]⟩], [[]]⟩

/-- C10 witness: on the concrete problem exC10w with its starting
point, the reported non-zero count equals the emitted pattern
length. -/
theorem nnz_consistency_witness :
    nnzJacG exC10w = (structuralCoords exC10w).length :=
  nnz_consistency_with_starting_point exC10w [XR.fin 0] rfl (by decide)

end RoboptimIpopt
